import Mathlib

/-
Shallow embedding of the doctor-listing UI in the repository
AdityaxUpadhyay/Bajaj.  The repository contains two implementations of the
same page:

  variant A : src/App.tsx              (the `filtered` / `suggestions` memos,
                                        `updateParam`, `specs` parsing)
  variant B : the second source file   (the filter effect, `handleSearch`,
                                        `updateParam`, `specs` parsing)

JavaScript strings are modelled as lists of characters, `toLowerCase` as the
character-wise ASCII lowering `Char.toLower` (all strings appearing in the
program are ASCII), `String.prototype.includes` as the executable substring
test `hasSub`, and JavaScript numbers (all non-negative integers here) as
`Nat`.  `Array.prototype.sort` with comparator `(a, b) => k a - k b` is
required by the ECMAScript specification to be a stable sort ordered by the
comparator; it is modelled by the stable insertion sort `sortK` on an integer
key.  A thrown `TypeError` is modelled as `Except.error`.
-/

open List

/-- Abbreviation: JavaScript strings are modelled as lists of characters. -/
abbrev Str := List Char

def str (s : String) : Str := s.data

/-- Character-wise ASCII lowering, modelling `String.prototype.toLowerCase`. -/
def lowerStr (s : Str) : Str := s.map Char.toLower

/-- Test whether the second list is an initial segment of the first. -/
def beginsWith : Str → Str → Bool
  | _, [] => true
  | [], _ :: _ => false
  | c :: cs, d :: ds => c == d && beginsWith cs ds

/-- Substring test, modelling `hay.includes(needle)` on JavaScript strings. -/
def hasSub : Str → Str → Bool
  | [], needle => needle.isEmpty
  | c :: cs, needle => beginsWith (c :: cs) needle || hasSub cs needle

/-- Case-insensitive containment: `name.toLowerCase().includes(q.toLowerCase())`,
the test used by both the name filter and the autocomplete in both variants. -/
def containsCI (name q : Str) : Bool := hasSub (lowerStr name) (lowerStr q)

/-- Doctor record as declared by the `Doctor` interface of both source files
(the display-only optional fields `qualification`, `hospital`, `location`,
`languages` play no part in filtering and are omitted). -/
structure Doctor where
  name : Str
  mode : Str
  speciality : List Str
  experience : Nat
  fees : Nat
deriving DecidableEq

/-- Query state read from the URL search params at the top of both variants:
`name` (variant B keeps it in component state instead), `moc`, the parsed
`specialty` list and `sort`.  An unset scalar key is the empty string, an
unset specialty selection the empty list. -/
structure Query where
  name : Str
  moc : Str
  specs : List Str
  sort : Str
deriving DecidableEq

/-- Insert `x` into `l` before the first element whose key is not strictly
below `k x`.  Elements with a key equal to `k x` therefore stay behind `x`,
which makes the resulting sort stable. -/
def insertK {α : Type} (k : α → Int) (x : α) : List α → List α
  | [] => [x]
  | y :: ys => if k y < k x then y :: insertK k x ys else x :: y :: ys

/-- Stable sort by an integer key, modelling `Array.prototype.sort` with the
comparator `(a, b) => k a - k b` (stable and comparator-ordered per the
ECMAScript specification). -/
def sortK {α : Type} (k : α → Int) : List α → List α
  | [] => []
  | x :: xs => insertK k x (sortK k xs)

/-- Name filter, identical in both variants:
`if (nameQuery) result = result.filter(d => d.name.toLowerCase().includes(q))`
with `q = nameQuery.toLowerCase()`; an empty query skips the step. -/
def filterName (q : Str) (ds : List Doctor) : List Doctor :=
  if q = [] then ds else ds.filter (fun d => containsCI d.name q)

/-- Variant A mode filter (App.tsx): `d.mode.toLowerCase() === m` with
`m = moc.toLowerCase()`; skipped when `moc` is empty. -/
def filterModeA (m : Str) (ds : List Doctor) : List Doctor :=
  if m = [] then ds else ds.filter (fun d => lowerStr d.mode == lowerStr m)

/-- Variant B mode filter (second file): `d.mode === moc`, a case-sensitive
comparison; skipped when `moc` is empty. -/
def filterModeB (m : Str) (ds : List Doctor) : List Doctor :=
  if m = [] then ds else ds.filter (fun d => d.mode == m)

/-- Variant A specialty predicate: `d.speciality.some(s => specs.includes(s))`
(ANY of the selected specialties). -/
def anyMatch (specs : List Str) (d : Doctor) : Bool :=
  d.speciality.any (fun s => specs.contains s)

/-- Variant B specialty predicate:
`Array.isArray(d.speciality) && specs.every(s => d.speciality.includes(s))`
(ALL of the selected specialties).  On a record of the declared `Doctor`
interface the `Array.isArray` guard is always true; the raw-payload record on
which it can fail is modelled below by `RawDoctor`. -/
def allMatch (specs : List Str) (d : Doctor) : Bool :=
  specs.all (fun s => d.speciality.contains s)

/-- Variant A specialty filter step: skipped when `specs.length` is 0. -/
def filterSpecA (specs : List Str) (ds : List Doctor) : List Doctor :=
  if specs = [] then ds else ds.filter (fun d => anyMatch specs d)

/-- Variant B specialty filter step: skipped when `specs.length` is 0. -/
def filterSpecB (specs : List Str) (ds : List Doctor) : List Doctor :=
  if specs = [] then ds else ds.filter (fun d => allMatch specs d)

/-- Sort key for `sort === "fees"`: comparator `(a, b) => a.fees - b.fees`. -/
def feeKey (d : Doctor) : Int := (d.fees : Int)

/-- Sort key for `sort === "experience"`: comparator
`(a, b) => b.experience - a.experience`, i.e. ascending in the negated
experience. -/
def expKey (d : Doctor) : Int := -(d.experience : Int)

/-- Sort dispatch, identical in both variants: sort ascending by fees when
`sort === "fees"`, descending by experience when `sort === "experience"`,
otherwise leave the filtered order unchanged.  (Variant B writes the two
comparisons as consecutive `if`s on a mutable array; since `sort` cannot
equal both strings the effect is the same.) -/
def applySort (s : Str) (ds : List Doctor) : List Doctor :=
  if s = str "fees" then sortK feeKey ds
  else if s = str "experience" then sortK expKey ds
  else ds

/-- Variant A filter pipeline before the sort step (App.tsx lines 51-66). -/
def preFilterA (ds : List Doctor) (q : Query) : List Doctor :=
  filterSpecA q.specs (filterModeA q.moc (filterName q.name ds))

/-- Variant B filter pipeline before the sort step (second file lines 40-43). -/
def preFilterB (ds : List Doctor) (q : Query) : List Doctor :=
  filterSpecB q.specs (filterModeB q.moc (filterName q.name ds))

/-- Variant A Filter/Sort Engine: the `filtered` memo of App.tsx. -/
def filteredA (ds : List Doctor) (q : Query) : List Doctor :=
  applySort q.sort (preFilterA ds q)

/-- Variant B Filter/Sort Engine: the filter effect of the second file. -/
def filteredB (ds : List Doctor) (q : Query) : List Doctor :=
  applySort q.sort (preFilterB ds q)

/-- Autocomplete engine, identical in both variants (the `suggestions` memo of
App.tsx and `handleSearch` of the second file): empty query gives no
suggestions, otherwise the case-insensitive name matches truncated by
`.slice(0, 3)`. -/
def suggestions (ds : List Doctor) (q : Str) : List Doctor :=
  if q = [] then [] else (ds.filter (fun d => containsCI d.name q)).take 3

/-- Doctor record as it actually arrives from the remote JSON payload:
`speciality` may be absent or not an array, modelled by `none`. -/
structure RawDoctor where
  name : Str
  mode : Str
  speciality : Option (List Str)
  experience : Nat
  fees : Nat
deriving DecidableEq

deriving instance DecidableEq for Except

/-- Variant A specialty predicate on a raw record:
`d.speciality.some(s => specs.includes(s))` throws a TypeError (modelled as
`Except.error`) when `speciality` is `undefined` or not an array. -/
def anyMatchRaw (specs : List Str) (d : RawDoctor) : Except Unit Bool :=
  match d.speciality with
  | none => .error ()
  | some l => .ok (l.any (fun s => specs.contains s))

/-- Variant A specialty filter over raw records: `Array.prototype.filter`
applies the callback left to right and propagates the first exception. -/
def filterSpecListRawA (specs : List Str) : List RawDoctor → Except Unit (List RawDoctor)
  | [] => .ok []
  | d :: ds =>
    match anyMatchRaw specs d with
    | .error e => .error e
    | .ok b =>
      match filterSpecListRawA specs ds with
      | .error e => .error e
      | .ok rest => .ok (if b then d :: rest else rest)

/-- Variant A specialty filter step over raw records, with the surrounding
`if (specs.length)` guard. -/
def filterSpecRawA (specs : List Str) (ds : List RawDoctor) : Except Unit (List RawDoctor) :=
  if specs = [] then .ok ds else filterSpecListRawA specs ds

/-- Variant B specialty predicate on a raw record: the `Array.isArray` guard
makes it total, and a missing/non-array `speciality` never matches. -/
def allMatchRaw (specs : List Str) (d : RawDoctor) : Bool :=
  match d.speciality with
  | none => false
  | some l => specs.all (fun s => l.contains s)

/-- Variant B specialty filter step over raw records. -/
def filterSpecRawB (specs : List Str) (ds : List RawDoctor) : List RawDoctor :=
  if specs = [] then ds else ds.filter (fun d => allMatchRaw specs d)

/-- URL search parameters: an ordered list of key/value entries, as held by a
`URLSearchParams` object. -/
abbrev Params := List (Str × Str)

/-- Model of `URLSearchParams.get`: the value of the first entry with the
given key, or null (`none`) when the key is absent. -/
def getParam (ps : Params) (k : Str) : Option Str :=
  match ps.find? (fun p => p.1 == k) with
  | none => none
  | some p => some p.2

/-- Model of `URLSearchParams.delete`: removes every entry with the key. -/
def deleteParam (ps : Params) (k : Str) : Params :=
  ps.filter (fun p => p.1 != k)

/-- Model of `URLSearchParams.set`: replaces the value of the first entry
with the key, removes any further entries with it, and appends when absent. -/
def setParam (k v : Str) : Params → Params
  | [] => [(k, v)]
  | p :: ps => if p.1 == k then (k, v) :: deleteParam ps k else p :: setParam k v ps

/-- Argument of `updateParam`: `value?: string | string[]` — possibly
undefined (`none`), a scalar string, or an array of strings. -/
inductive ParamValue where
  | scalar (s : Str)
  | coll (l : List Str)
deriving DecidableEq

/-- The `updateParam` helper, identical in both variants:
`!value || (Array.isArray(value) && value.length === 0)` holds exactly for
`undefined`, the empty string and the empty array, in which case the key is
deleted; otherwise the key is set, an array being joined with a comma. -/
def updateParam (ps : Params) (key : Str) (value : Option ParamValue) : Params :=
  match value with
  | none => deleteParam ps key
  | some (.scalar s) => if s = [] then deleteParam ps key else setParam key s ps
  | some (.coll l) =>
      if l = [] then deleteParam ps key
      else setParam key (List.intercalate (str ",") l) ps

/-- Model of `s.split(",")` on JavaScript strings: note `"".split(",")` is
`[""]`, a one-element array. -/
def splitComma : Str → List Str
  | [] => [[]]
  | c :: cs =>
    if c = ',' then [] :: splitComma cs
    else
      match splitComma cs with
      | [] => [[c]]
      | h :: t => (c :: h) :: t

/-- Parsing of the specialty selection, identical in both variants:
`searchParams.get("specialty")?.split(",") || []`.  An absent key gives
`undefined`, hence `[]`; a present value — even the empty string — is split,
and the resulting array is always truthy, so the `|| []` branch is not
taken. -/
def parseSpecs (raw : Option Str) : List Str :=
  match raw with
  | none => []
  | some s => splitComma s

/-- The fixed 24-term specialty vocabulary, identical in both variants. -/
def SPECIALTIES : List Str :=
  [str "General Physician", str "Dentist", str "Dermatologist", str "Paediatrician",
   str "Gynaecologist", str "ENT", str "Diabetologist", str "Cardiologist",
   str "Physiotherapist", str "Endocrinologist", str "Orthopaedic", str "Ophthalmologist",
   str "Gastroenterologist", str "Pulmonologist", str "Psychiatrist", str "Urologist",
   str "Dietitian/Nutritionist", str "Psychologist", str "Sexologist", str "Nephrologist",
   str "Neurologist", str "Oncologist", str "Ayurveda", str "Homeopath"]

/-- Sample record: an ENT-only doctor, used in concrete instances. -/
def dENT : Doctor :=
  { name := str "Dr E", mode := str "Video Consult",
    speciality := [str "ENT"], experience := 4, fees := 200 }

/-- Sample record whose mode differs from the UI label only by case. -/
def dVC : Doctor :=
  { name := str "Dr V", mode := str "video consult",
    speciality := [str "Dentist"], experience := 3, fees := 100 }

/-- Sample raw record with a missing `speciality` field. -/
def dMal : RawDoctor :=
  { name := str "Dr M", mode := str "In Clinic",
    speciality := none, experience := 2, fees := 50 }

/-- Sample raw record with a well-formed `speciality` field. -/
def dOkRaw : RawDoctor :=
  { name := str "Dr O", mode := str "In Clinic",
    speciality := some [str "Dentist"], experience := 7, fees := 80 }

/-- Sample record for the autocomplete scenario. -/
def dAlice : Doctor :=
  { name := str "Alice", mode := str "Video Consult",
    speciality := [str "Dentist"], experience := 1, fees := 10 }

/-- Sample record for the autocomplete scenario. -/
def dBob : Doctor :=
  { name := str "Bob", mode := str "In Clinic",
    speciality := [str "ENT"], experience := 2, fees := 20 }

/-- Sample record for the autocomplete scenario. -/
def dAmanda : Doctor :=
  { name := str "Amanda", mode := str "In Clinic",
    speciality := [str "Dentist"], experience := 3, fees := 30 }

/-- Sample record for the autocomplete scenario. -/
def dCarl : Doctor :=
  { name := str "Carl", mode := str "Video Consult",
    speciality := [str "ENT"], experience := 4, fees := 40 }

/-- Inserting is a permutation of consing. -/
theorem insertK_perm {α : Type} (k : α → Int) (x : α) (l : List α) :
    List.Perm (insertK k x l) (x :: l) := by
  induction l with
  | nil => exact List.Perm.refl _
  | cons y ys ih =>
    simp only [insertK]
    by_cases h : k y < k x
    · rw [if_pos h]
      exact (ih.cons y).trans (List.Perm.swap x y ys)
    · rw [if_neg h]

/-- Sorting permutes the list. -/
theorem sortK_perm {α : Type} (k : α → Int) (l : List α) :
    List.Perm (sortK k l) l := by
  induction l with
  | nil => exact List.Perm.refl _
  | cons x xs ih =>
    simp only [sortK]
    exact (insertK_perm k x (sortK k xs)).trans (ih.cons x)

/-- Sorting preserves membership. -/
theorem mem_sortK {α : Type} (k : α → Int) (l : List α) (a : α) :
    a ∈ sortK k l ↔ a ∈ l :=
  (sortK_perm k l).mem_iff

/-- Inserting into a key-sorted list keeps it key-sorted. -/
theorem insertK_pairwise {α : Type} (k : α → Int) (x : α) (l : List α)
    (h : l.Pairwise (fun a b => k a ≤ k b)) :
    (insertK k x l).Pairwise (fun a b => k a ≤ k b) := by
  induction l with
  | nil => simp [insertK]
  | cons y ys ih =>
    rcases List.pairwise_cons.mp h with ⟨hy, hys⟩
    simp only [insertK]
    by_cases hlt : k y < k x
    · rw [if_pos hlt]
      refine List.pairwise_cons.mpr ⟨?_, ih hys⟩
      intro z hz
      rcases List.mem_cons.mp ((insertK_perm k x ys).mem_iff.mp hz) with hz' | hz'
      · exact hz' ▸ le_of_lt hlt
      · exact hy z hz'
    · rw [if_neg hlt]
      refine List.pairwise_cons.mpr ⟨?_, List.pairwise_cons.mpr ⟨hy, hys⟩⟩
      intro z hz
      rcases List.mem_cons.mp hz with hz' | hz'
      · exact hz' ▸ le_of_not_lt hlt
      · exact le_trans (le_of_not_lt hlt) (hy z hz')

/-- The sort is ordered by the key. -/
theorem sortK_pairwise {α : Type} (k : α → Int) (l : List α) :
    (sortK k l).Pairwise (fun a b => k a ≤ k b) := by
  induction l with
  | nil => exact List.Pairwise.nil
  | cons x xs ih => exact insertK_pairwise k x (sortK k xs) ih

/-- Filtering by a predicate the inserted element fails commutes with the
insertion. -/
theorem filter_insertK_neg {α : Type} (k : α → Int) (p : α → Bool) (x : α)
    (l : List α) (hp : p x = false) :
    (insertK k x l).filter p = l.filter p := by
  induction l with
  | nil => simp [insertK, hp]
  | cons y ys ih =>
    simp only [insertK]
    by_cases h : k y < k x
    · rw [if_pos h]
      by_cases hy : p y
      · rw [List.filter_cons_of_pos hy, List.filter_cons_of_pos hy, ih]
      · rw [List.filter_cons_of_neg hy, List.filter_cons_of_neg hy, ih]
    · rw [if_neg h, List.filter_cons_of_neg (by simp [hp])]

/-- When the inserted element satisfies the predicate and every strictly
smaller key fails it, the element heads the filtered result. -/
theorem filter_insertK_pos {α : Type} (k : α → Int) (p : α → Bool) (x : α)
    (l : List α) (hp : p x = true)
    (hlt : ∀ y, k y < k x → p y = false) :
    (insertK k x l).filter p = x :: l.filter p := by
  induction l with
  | nil => simp [insertK, hp]
  | cons y ys ih =>
    simp only [insertK]
    by_cases h : k y < k x
    · rw [if_pos h]
      have hy : p y = false := hlt y h
      rw [List.filter_cons_of_neg (by simp [hy]), List.filter_cons_of_neg (by simp [hy]), ih]
    · rw [if_neg h, List.filter_cons_of_pos (by simp [hp])]

/-- Stability of `sortK`: filtering by any predicate that pins the key down
to a single value commutes with the sort, so records with equal keys keep
their relative input order. -/
theorem sortK_stable {α : Type} (k : α → Int) (p : α → Bool)
    (hkey : ∀ a b, p a = true → p b = true → k a = k b) (l : List α) :
    (sortK k l).filter p = l.filter p := by
  induction l with
  | nil => rfl
  | cons x xs ih =>
    simp only [sortK]
    by_cases hx : p x = true
    · have hlt : ∀ y, k y < k x → p y = false := by
        intro y hy
        by_cases hpy : p y = true
        · exact absurd (hkey y x hpy hx ▸ hy) (lt_irrefl _)
        · exact Bool.not_eq_true _ ▸ (by simpa using hpy)
      rw [filter_insertK_pos k p x _ hx hlt, ih, List.filter_cons_of_pos (by simp [hx])]
    · have hx' : p x = false := by simpa using hx
      rw [filter_insertK_neg k p x _ hx', ih, List.filter_cons_of_neg (by simp [hx'])]

/-- Membership in the name-filter output gives membership in the input and,
when the query is active, the case-insensitive name match. -/
theorem mem_filterName {q : Str} {ds : List Doctor} {d : Doctor}
    (hd : d ∈ filterName q ds) :
    d ∈ ds ∧ (q ≠ [] → containsCI d.name q = true) := by
  unfold filterName at hd
  by_cases hq : q = []
  · rw [if_pos hq] at hd
    exact ⟨hd, fun h => absurd hq h⟩
  · rw [if_neg hq] at hd
    rcases List.mem_filter.mp hd with ⟨h1, h2⟩
    exact ⟨h1, fun _ => h2⟩

/-- Membership in variant A's mode-filter output. -/
theorem mem_filterModeA {m : Str} {ds : List Doctor} {d : Doctor}
    (hd : d ∈ filterModeA m ds) :
    d ∈ ds ∧ (m ≠ [] → lowerStr d.mode = lowerStr m) := by
  unfold filterModeA at hd
  by_cases hm : m = []
  · rw [if_pos hm] at hd
    exact ⟨hd, fun h => absurd hm h⟩
  · rw [if_neg hm] at hd
    rcases List.mem_filter.mp hd with ⟨h1, h2⟩
    exact ⟨h1, fun _ => eq_of_beq h2⟩

/-- Membership in variant B's mode-filter output. -/
theorem mem_filterModeB {m : Str} {ds : List Doctor} {d : Doctor}
    (hd : d ∈ filterModeB m ds) :
    d ∈ ds ∧ (m ≠ [] → d.mode = m) := by
  unfold filterModeB at hd
  by_cases hm : m = []
  · rw [if_pos hm] at hd
    exact ⟨hd, fun h => absurd hm h⟩
  · rw [if_neg hm] at hd
    rcases List.mem_filter.mp hd with ⟨h1, h2⟩
    exact ⟨h1, fun _ => eq_of_beq h2⟩

/-- Membership in variant A's specialty-filter output. -/
theorem mem_filterSpecA {specs : List Str} {ds : List Doctor} {d : Doctor}
    (hd : d ∈ filterSpecA specs ds) :
    d ∈ ds ∧ (specs ≠ [] → anyMatch specs d = true) := by
  unfold filterSpecA at hd
  by_cases hs : specs = []
  · rw [if_pos hs] at hd
    exact ⟨hd, fun h => absurd hs h⟩
  · rw [if_neg hs] at hd
    rcases List.mem_filter.mp hd with ⟨h1, h2⟩
    exact ⟨h1, fun _ => h2⟩

/-- Membership in variant B's specialty-filter output. -/
theorem mem_filterSpecB {specs : List Str} {ds : List Doctor} {d : Doctor}
    (hd : d ∈ filterSpecB specs ds) :
    d ∈ ds ∧ (specs ≠ [] → allMatch specs d = true) := by
  unfold filterSpecB at hd
  by_cases hs : specs = []
  · rw [if_pos hs] at hd
    exact ⟨hd, fun h => absurd hs h⟩
  · rw [if_neg hs] at hd
    rcases List.mem_filter.mp hd with ⟨h1, h2⟩
    exact ⟨h1, fun _ => h2⟩

/-- The sort dispatch never adds or removes records. -/
theorem mem_applySort {s : Str} {ds : List Doctor} {d : Doctor} :
    d ∈ applySort s ds ↔ d ∈ ds := by
  unfold applySort
  by_cases h1 : s = str "fees"
  · rw [if_pos h1]
    exact mem_sortK feeKey ds d
  · rw [if_neg h1]
    by_cases h2 : s = str "experience"
    · rw [if_pos h2]
      exact mem_sortK expKey ds d
    · rw [if_neg h2]

/-- Claim C1: for every doctor list `D` and query state `Q`, every record in
the output of the Filter/Sort Engine satisfies all active filters
simultaneously — an active name query is contained case-insensitively in the
record's name, an active mode matches the record's mode (case-insensitively
in variant A, exactly in variant B), and an active specialty selection is
satisfied by the record's specialty predicate (ANY in variant A, ALL in
variant B); filtering is conjunctive across the criteria. -/
theorem C1_conjunctive_filters (D : List Doctor) (Q : Query) (d : Doctor) :
    (d ∈ filteredA D Q →
      (Q.name ≠ [] → containsCI d.name Q.name = true) ∧
      (Q.moc ≠ [] → lowerStr d.mode = lowerStr Q.moc) ∧
      (Q.specs ≠ [] → anyMatch Q.specs d = true)) ∧
    (d ∈ filteredB D Q →
      (Q.name ≠ [] → containsCI d.name Q.name = true) ∧
      (Q.moc ≠ [] → d.mode = Q.moc) ∧
      (Q.specs ≠ [] → allMatch Q.specs d = true)) := by
  constructor
  · intro hd
    have h1 := mem_applySort.mp hd
    rcases mem_filterSpecA h1 with ⟨h2, hspec⟩
    rcases mem_filterModeA h2 with ⟨h3, hmode⟩
    rcases mem_filterName h3 with ⟨_, hname⟩
    exact ⟨hname, hmode, hspec⟩
  · intro hd
    have h1 := mem_applySort.mp hd
    rcases mem_filterSpecB h1 with ⟨h2, hspec⟩
    rcases mem_filterModeB h2 with ⟨h3, hmode⟩
    rcases mem_filterName h3 with ⟨_, hname⟩
    exact ⟨hname, hmode, hspec⟩

/-- Witness for claim C1 at a concrete doctor and a query with all three
filters active. -/
theorem C1_conjunctive_filters_witness :
    containsCI dENT.name (str "dr") = true ∧
    lowerStr dENT.mode = lowerStr (str "video consult") ∧
    anyMatch [str "ENT"] dENT = true := by
  have h := (C1_conjunctive_filters [dENT, dVC]
      { name := str "dr", moc := str "video consult",
        specs := [str "ENT"], sort := [] } dENT).1 (by decide)
  exact ⟨h.1 (by decide), h.2.1 (by decide), h.2.2 (by decide)⟩

/-- The name-filter step produces a sublist of its input. -/
theorem filterName_sublist (q : Str) (ds : List Doctor) :
    filterName q ds <+ ds := by
  unfold filterName
  by_cases hq : q = []
  · rw [if_pos hq]
  · rw [if_neg hq]
    exact List.filter_sublist ds

/-- Variant A's mode-filter step produces a sublist of its input. -/
theorem filterModeA_sublist (m : Str) (ds : List Doctor) :
    filterModeA m ds <+ ds := by
  unfold filterModeA
  by_cases hm : m = []
  · rw [if_pos hm]
  · rw [if_neg hm]
    exact List.filter_sublist ds

/-- Variant B's mode-filter step produces a sublist of its input. -/
theorem filterModeB_sublist (m : Str) (ds : List Doctor) :
    filterModeB m ds <+ ds := by
  unfold filterModeB
  by_cases hm : m = []
  · rw [if_pos hm]
  · rw [if_neg hm]
    exact List.filter_sublist ds

/-- Variant A's specialty-filter step produces a sublist of its input. -/
theorem filterSpecA_sublist (specs : List Str) (ds : List Doctor) :
    filterSpecA specs ds <+ ds := by
  unfold filterSpecA
  by_cases hs : specs = []
  · rw [if_pos hs]
  · rw [if_neg hs]
    exact List.filter_sublist ds

/-- Variant B's specialty-filter step produces a sublist of its input. -/
theorem filterSpecB_sublist (specs : List Str) (ds : List Doctor) :
    filterSpecB specs ds <+ ds := by
  unfold filterSpecB
  by_cases hs : specs = []
  · rw [if_pos hs]
  · rw [if_neg hs]
    exact List.filter_sublist ds

/-- Variant A's filter pipeline produces a sublist of the fetched list. -/
theorem preFilterA_sublist (ds : List Doctor) (q : Query) :
    preFilterA ds q <+ ds :=
  ((filterSpecA_sublist q.specs _).trans (filterModeA_sublist q.moc _)).trans
    (filterName_sublist q.name ds)

/-- Variant B's filter pipeline produces a sublist of the fetched list. -/
theorem preFilterB_sublist (ds : List Doctor) (q : Query) :
    preFilterB ds q <+ ds :=
  ((filterSpecB_sublist q.specs _).trans (filterModeB_sublist q.moc _)).trans
    (filterName_sublist q.name ds)

/-- When the sort key is neither "fees" nor "experience" the sort dispatch is
the identity. -/
theorem applySort_eq_of_ne {s : Str} (h1 : s ≠ str "fees")
    (h2 : s ≠ str "experience") (ds : List Doctor) : applySort s ds = ds := by
  unfold applySort
  rw [if_neg h1, if_neg h2]

/-- When the sort key is "fees" the dispatch is the stable sort by fees. -/
theorem applySort_fees (ds : List Doctor) :
    applySort (str "fees") ds = sortK feeKey ds := by
  unfold applySort
  rw [if_pos rfl]

/-- When the sort key is "experience" the dispatch is the stable sort by
descending experience. -/
theorem applySort_experience (ds : List Doctor) :
    applySort (str "experience") ds = sortK expKey ds := by
  unfold applySort
  rw [if_neg (by decide), if_pos rfl]

/-- Records with equal fees have equal fee keys. -/
theorem feeKey_eq_of_beq (v : Nat) (a b : Doctor)
    (ha : (a.fees == v) = true) (hb : (b.fees == v) = true) :
    feeKey a = feeKey b := by
  have h1 : a.fees = v := eq_of_beq ha
  have h2 : b.fees = v := by exact_mod_cast eq_of_beq hb
  simp [feeKey, h1, h2]

/-- Records with equal experience have equal experience keys. -/
theorem expKey_eq_of_beq (v : Nat) (a b : Doctor)
    (ha : (a.experience == v) = true) (hb : (b.experience == v) = true) :
    expKey a = expKey b := by
  have h1 : a.experience = v := by exact_mod_cast eq_of_beq ha
  have h2 : b.experience = v := by exact_mod_cast eq_of_beq hb
  simp [expKey, h1, h2]

/-- Claim C2: with no sort key the engine output is a subsequence of the
fetched list (records appear in original fetch order), and with a sort key
the output is a permutation of the filtered subsequence in which records with
equal sort keys keep their relative input order (stable sort), in both
variants. -/
theorem C2_subsequence_and_stability (D : List Doctor) (Q : Query) :
    (Q.sort ≠ str "fees" → Q.sort ≠ str "experience" →
      filteredA D Q <+ D ∧ filteredB D Q <+ D) ∧
    (Q.sort = str "fees" →
      (preFilterA D Q <+ D ∧ preFilterB D Q <+ D) ∧
      (List.Perm (filteredA D Q) (preFilterA D Q) ∧
        List.Perm (filteredB D Q) (preFilterB D Q)) ∧
      (∀ v : Nat, (filteredA D Q).filter (fun d => d.fees == v) =
        (preFilterA D Q).filter (fun d => d.fees == v)) ∧
      (∀ v : Nat, (filteredB D Q).filter (fun d => d.fees == v) =
        (preFilterB D Q).filter (fun d => d.fees == v))) ∧
    (Q.sort = str "experience" →
      (preFilterA D Q <+ D ∧ preFilterB D Q <+ D) ∧
      (List.Perm (filteredA D Q) (preFilterA D Q) ∧
        List.Perm (filteredB D Q) (preFilterB D Q)) ∧
      (∀ v : Nat, (filteredA D Q).filter (fun d => d.experience == v) =
        (preFilterA D Q).filter (fun d => d.experience == v)) ∧
      (∀ v : Nat, (filteredB D Q).filter (fun d => d.experience == v) =
        (preFilterB D Q).filter (fun d => d.experience == v))) := by
  refine ⟨?_, ?_, ?_⟩
  · intro h1 h2
    constructor
    · show applySort Q.sort (preFilterA D Q) <+ D
      rw [applySort_eq_of_ne h1 h2]
      exact preFilterA_sublist D Q
    · show applySort Q.sort (preFilterB D Q) <+ D
      rw [applySort_eq_of_ne h1 h2]
      exact preFilterB_sublist D Q
  · intro h
    have hA : filteredA D Q = sortK feeKey (preFilterA D Q) := by
      unfold filteredA
      rw [h, applySort_fees]
    have hB : filteredB D Q = sortK feeKey (preFilterB D Q) := by
      unfold filteredB
      rw [h, applySort_fees]
    refine ⟨⟨preFilterA_sublist D Q, preFilterB_sublist D Q⟩, ⟨?_, ?_⟩, ?_, ?_⟩
    · rw [hA]; exact sortK_perm feeKey _
    · rw [hB]; exact sortK_perm feeKey _
    · intro v
      rw [hA]
      exact sortK_stable feeKey _ (feeKey_eq_of_beq v) _
    · intro v
      rw [hB]
      exact sortK_stable feeKey _ (feeKey_eq_of_beq v) _
  · intro h
    have hA : filteredA D Q = sortK expKey (preFilterA D Q) := by
      unfold filteredA
      rw [h, applySort_experience]
    have hB : filteredB D Q = sortK expKey (preFilterB D Q) := by
      unfold filteredB
      rw [h, applySort_experience]
    refine ⟨⟨preFilterA_sublist D Q, preFilterB_sublist D Q⟩, ⟨?_, ?_⟩, ?_, ?_⟩
    · rw [hA]; exact sortK_perm expKey _
    · rw [hB]; exact sortK_perm expKey _
    · intro v
      rw [hA]
      exact sortK_stable expKey _ (expKey_eq_of_beq v) _
    · intro v
      rw [hB]
      exact sortK_stable expKey _ (expKey_eq_of_beq v) _

/-- Witness for claim C2 at concrete inputs: an unsorted query gives a
subsequence, and a fees-sorted query keeps equal-fee records in input
order. -/
theorem C2_subsequence_and_stability_witness :
    filteredA [dENT, dVC] { name := [], moc := [], specs := [], sort := [] }
      <+ [dENT, dVC] ∧
    (filteredA [dENT, dVC]
        { name := [], moc := [], specs := [], sort := str "fees" }).filter
        (fun d => d.fees == 200) =
      (preFilterA [dENT, dVC]
        { name := [], moc := [], specs := [], sort := str "fees" }).filter
        (fun d => d.fees == 200) := by
  constructor
  · exact ((C2_subsequence_and_stability [dENT, dVC]
      { name := [], moc := [], specs := [], sort := [] }).1
      (by decide) (by decide)).1
  · exact ((C2_subsequence_and_stability [dENT, dVC]
      { name := [], moc := [], specs := [], sort := str "fees" }).2.1
      rfl).2.2.1 200

/-- Claim C3: when the sort key is "fees" the engine output has non-decreasing
fee values, and when it is "experience" the output has non-increasing
experience values, in both variants. -/
theorem C3_sorted_output (D : List Doctor) (Q : Query) :
    (Q.sort = str "fees" →
      (filteredA D Q).Pairwise (fun a b => a.fees ≤ b.fees) ∧
      (filteredB D Q).Pairwise (fun a b => a.fees ≤ b.fees)) ∧
    (Q.sort = str "experience" →
      (filteredA D Q).Pairwise (fun a b => b.experience ≤ a.experience) ∧
      (filteredB D Q).Pairwise (fun a b => b.experience ≤ a.experience)) := by
  have hfee : ∀ a b : Doctor, feeKey a ≤ feeKey b → a.fees ≤ b.fees := by
    intro a b h
    simpa [feeKey] using h
  have hexp : ∀ a b : Doctor, expKey a ≤ expKey b → b.experience ≤ a.experience := by
    intro a b h
    simp only [expKey, neg_le_neg_iff] at h
    exact_mod_cast h
  constructor
  · intro h
    constructor
    · have hA : filteredA D Q = sortK feeKey (preFilterA D Q) := by
        unfold filteredA
        rw [h, applySort_fees]
      rw [hA]
      exact (sortK_pairwise feeKey _).imp (fun hab => hfee _ _ hab)
    · have hB : filteredB D Q = sortK feeKey (preFilterB D Q) := by
        unfold filteredB
        rw [h, applySort_fees]
      rw [hB]
      exact (sortK_pairwise feeKey _).imp (fun hab => hfee _ _ hab)
  · intro h
    constructor
    · have hA : filteredA D Q = sortK expKey (preFilterA D Q) := by
        unfold filteredA
        rw [h, applySort_experience]
      rw [hA]
      exact (sortK_pairwise expKey _).imp (fun hab => hexp _ _ hab)
    · have hB : filteredB D Q = sortK expKey (preFilterB D Q) := by
        unfold filteredB
        rw [h, applySort_experience]
      rw [hB]
      exact (sortK_pairwise expKey _).imp (fun hab => hexp _ _ hab)

/-- Witness for claim C3: a fees sort and an experience sort over a concrete
two-doctor list. -/
theorem C3_sorted_output_witness :
    (filteredA [dENT, dVC] ⟨[], [], [], str "fees"⟩).Pairwise
      (fun a b => a.fees ≤ b.fees) ∧
    (filteredB [dENT, dVC] ⟨[], [], [], str "experience"⟩).Pairwise
      (fun a b => b.experience ≤ a.experience) := by
  constructor
  · exact ((C3_sorted_output [dENT, dVC] ⟨[], [], [], str "fees"⟩).1 rfl).1
  · exact ((C3_sorted_output [dENT, dVC] ⟨[], [], [], str "experience"⟩).2 rfl).2

/-- Claim C4: the two implementations disagree on specialty-filter semantics —
with selection {"Dentist","ENT"} a doctor whose speciality is exactly ["ENT"]
matches variant A's ANY semantics but not variant B's ALL semantics, and the
two engines produce different filtered lists on the same input. -/
theorem C4_specialty_semantics_disagree :
    anyMatch [str "Dentist", str "ENT"] dENT = true ∧
    allMatch [str "Dentist", str "ENT"] dENT = false ∧
    filteredA [dENT] ⟨[], [], [str "Dentist", str "ENT"], []⟩ = [dENT] ∧
    filteredB [dENT] ⟨[], [], [str "Dentist", str "ENT"], []⟩ = [] ∧
    filteredA [dENT] ⟨[], [], [str "Dentist", str "ENT"], []⟩ ≠
      filteredB [dENT] ⟨[], [], [str "Dentist", str "ENT"], []⟩ := by decide

/-- Counterexample to claim C5 as stated: in the part_000 variant the mode
comparison is case-sensitive, so a record whose mode equals the selection
up to case ("video consult" vs "Video Consult") is nevertheless dropped. -/
theorem C5_counterexample :
    lowerStr dVC.mode = lowerStr (str "Video Consult") ∧
    filterModeB (str "Video Consult") [dVC] = [] ∧
    dVC ∉ filterModeB (str "Video Consult") [dVC] := by decide

/-- Claim C5 (amended): in the App.tsx variant the mode filter keeps exactly
the records whose mode equals the non-empty selection under case-insensitive
comparison, while in the part_000 variant it keeps exactly the records whose
mode equals the selection exactly (case-sensitively); with no mode selected
both variants skip the filter. -/
theorem C5_mode_filter (ds : List Doctor) (m : Str) (d : Doctor) :
    (m ≠ [] →
      ((d ∈ filterModeA m ds) ↔ d ∈ ds ∧ lowerStr d.mode = lowerStr m) ∧
      ((d ∈ filterModeB m ds) ↔ d ∈ ds ∧ d.mode = m)) ∧
    filterModeA [] ds = ds ∧ filterModeB [] ds = ds := by
  refine ⟨?_, ?_, ?_⟩
  · intro hm
    constructor
    · unfold filterModeA
      rw [if_neg hm, List.mem_filter]
      constructor
      · exact fun h => ⟨h.1, eq_of_beq h.2⟩
      · exact fun h => ⟨h.1, beq_iff_eq.mpr h.2⟩
    · unfold filterModeB
      rw [if_neg hm, List.mem_filter]
      constructor
      · exact fun h => ⟨h.1, eq_of_beq h.2⟩
      · exact fun h => ⟨h.1, beq_iff_eq.mpr h.2⟩
  · unfold filterModeA
    rw [if_pos rfl]
  · unfold filterModeB
    rw [if_pos rfl]

/-- Witness for claim C5 (amended): the case-differing record is kept by
variant A's mode filter and dropped by variant B's. -/
theorem C5_mode_filter_witness :
    ((dVC ∈ filterModeA (str "Video Consult") [dVC]) ↔
      dVC ∈ [dVC] ∧ lowerStr dVC.mode = lowerStr (str "Video Consult")) ∧
    ((dVC ∈ filterModeB (str "Video Consult") [dVC]) ↔
      dVC ∈ [dVC] ∧ dVC.mode = str "Video Consult") :=
  (C5_mode_filter [dVC] (str "Video Consult") dVC).1 (by decide)

/-- Claim C6 at the failing input: on a record whose `speciality` is absent,
App.tsx's specialty branch throws (its `.some` call on `undefined`) instead
of excluding the record, so the active specialty filter crashes the
evaluation of the whole list; the part_000 variant, whose `Array.isArray`
guard the claim describes, excludes the record totally as claimed. -/
theorem C6_crash_on_malformed_speciality :
    anyMatchRaw [str "Dentist"] dMal = .error () ∧
    filterSpecRawA [str "Dentist"] [dOkRaw, dMal] = .error () ∧
    allMatchRaw [str "Dentist"] dMal = false ∧
    filterSpecRawB [str "Dentist"] [dOkRaw, dMal] = [dOkRaw] := by decide

/-- Claim C7: the autocomplete returns at most 3 records, every returned
record's name contains the query case-insensitively, a non-empty query
returns exactly the first (at most 3) matches in list order, and an empty
query yields the empty suggestion list. -/
theorem C7_autocomplete (D : List Doctor) (q : Str) :
    (suggestions D q).length ≤ 3 ∧
    (∀ d ∈ suggestions D q, containsCI d.name q = true) ∧
    (q ≠ [] →
      suggestions D q = (D.filter (fun d => containsCI d.name q)).take 3) ∧
    suggestions D [] = [] := by
  refine ⟨?_, ?_, ?_, ?_⟩
  · unfold suggestions
    by_cases hq : q = []
    · rw [if_pos hq]
      simp
    · rw [if_neg hq]
      exact (List.length_take_le 3 _)
  · intro d hd
    unfold suggestions at hd
    by_cases hq : q = []
    · rw [if_pos hq] at hd
      exact absurd hd (List.not_mem_nil d)
    · rw [if_neg hq] at hd
      exact (List.mem_filter.mp (List.mem_of_mem_take hd)).2
  · intro hq
    unfold suggestions
    rw [if_neg hq]
  · unfold suggestions
    rw [if_pos rfl]

/-- Witness for claim C7 at the spec scenario: query "a" over
[Alice, Bob, Amanda, Carl]. -/
theorem C7_autocomplete_witness :
    (suggestions [dAlice, dBob, dAmanda, dCarl] (str "a")).length ≤ 3 ∧
    suggestions [dAlice, dBob, dAmanda, dCarl] (str "a") =
      ([dAlice, dBob, dAmanda, dCarl].filter
        (fun d => containsCI d.name (str "a"))).take 3 :=
  ⟨(C7_autocomplete [dAlice, dBob, dAmanda, dCarl] (str "a")).1,
   (C7_autocomplete [dAlice, dBob, dAmanda, dCarl] (str "a")).2.2.1 (by decide)⟩

/-- Reading a cons cell checks its key first. -/
theorem getParam_cons (p : Str × Str) (ps : Params) (k : Str) :
    getParam (p :: ps) k = if p.1 = k then some p.2 else getParam ps k := by
  unfold getParam
  by_cases h : p.1 = k
  · rw [if_pos h, List.find?_cons_of_pos _ (by simpa using h)]
  · rw [if_neg h, List.find?_cons_of_neg _ (by simpa using h)]

/-- Deletion on a cons cell drops it exactly when its key matches. -/
theorem deleteParam_cons (p : Str × Str) (ps : Params) (k : Str) :
    deleteParam (p :: ps) k =
      if p.1 = k then deleteParam ps k else p :: deleteParam ps k := by
  unfold deleteParam
  by_cases h : p.1 = k
  · rw [if_pos h, List.filter_cons_of_neg (by simp [h])]
  · rw [if_neg h, List.filter_cons_of_pos (by simp [h])]

/-- After deleting a key it reads as absent. -/
theorem getParam_delete_self (ps : Params) (k : Str) :
    getParam (deleteParam ps k) k = none := by
  induction ps with
  | nil => rfl
  | cons p ps ih =>
    rw [deleteParam_cons]
    by_cases h : p.1 = k
    · rw [if_pos h]
      exact ih
    · rw [if_neg h, getParam_cons, if_neg h]
      exact ih

/-- Deleting one key does not change the reading of another. -/
theorem getParam_delete_other (ps : Params) (k k' : Str) (h : k' ≠ k) :
    getParam (deleteParam ps k) k' = getParam ps k' := by
  induction ps with
  | nil => rfl
  | cons p ps ih =>
    rw [deleteParam_cons]
    by_cases hpk : p.1 = k
    · rw [if_pos hpk, ih, getParam_cons, if_neg (by rw [hpk]; exact Ne.symm h)]
    · rw [if_neg hpk, getParam_cons, getParam_cons, ih]

/-- After setting a key it reads as the written value. -/
theorem getParam_set_self (ps : Params) (k v : Str) :
    getParam (setParam k v ps) k = some v := by
  induction ps with
  | nil =>
    unfold setParam
    rw [getParam_cons, if_pos rfl]
  | cons p ps ih =>
    unfold setParam
    by_cases h : p.1 = k
    · rw [if_pos (beq_iff_eq.mpr h), getParam_cons, if_pos rfl]
    · rw [if_neg (by simp [h]), getParam_cons, if_neg h]
      exact ih

/-- Setting one key does not change the reading of another. -/
theorem getParam_set_other (ps : Params) (k v k' : Str) (h : k' ≠ k) :
    getParam (setParam k v ps) k' = getParam ps k' := by
  induction ps with
  | nil =>
    unfold setParam
    rw [getParam_cons, if_neg (Ne.symm h)]
  | cons p ps ih =>
    unfold setParam
    by_cases hpk : p.1 = k
    · rw [if_pos (beq_iff_eq.mpr hpk), getParam_cons, if_neg (Ne.symm h),
        getParam_delete_other ps k k' h, getParam_cons,
        if_neg (by rw [hpk]; exact Ne.symm h)]
    · rw [if_neg (by simp [hpk]), getParam_cons, getParam_cons, ih]

/-- Equation lemma: `updateParam` on an undefined value deletes the key. -/
theorem updateParam_none (ps : Params) (k : Str) :
    updateParam ps k none = deleteParam ps k := rfl

/-- Equation lemma: `updateParam` on a scalar value. -/
theorem updateParam_scalar (ps : Params) (k s : Str) :
    updateParam ps k (some (.scalar s)) =
      if s = [] then deleteParam ps k else setParam k s ps := rfl

/-- Equation lemma: `updateParam` on a collection value. -/
theorem updateParam_coll (ps : Params) (k : Str) (l : List Str) :
    updateParam ps k (some (.coll l)) =
      if l = [] then deleteParam ps k
      else setParam k (List.intercalate (str ",") l) ps := rfl

/-- Claim C8: updating a key with the empty string (or the empty collection,
or undefined) removes it, so a following get returns empty; updating with a
non-empty scalar stores that scalar, and a non-empty collection is stored as
its elements joined with a comma. -/
theorem C8_update_then_get (ps : Params) (k : Str) :
    getParam (updateParam ps k (some (.scalar []))) k = none ∧
    getParam (updateParam ps k (some (.coll []))) k = none ∧
    getParam (updateParam ps k none) k = none ∧
    (∀ s : Str, s ≠ [] →
      getParam (updateParam ps k (some (.scalar s))) k = some s) ∧
    (∀ l : List Str, l ≠ [] →
      getParam (updateParam ps k (some (.coll l))) k =
        some (List.intercalate (str ",") l)) := by
  refine ⟨?_, ?_, ?_, ?_, ?_⟩
  · rw [updateParam_scalar, if_pos rfl]
    exact getParam_delete_self ps k
  · rw [updateParam_coll, if_pos rfl]
    exact getParam_delete_self ps k
  · rw [updateParam_none]
    exact getParam_delete_self ps k
  · intro s hs
    rw [updateParam_scalar, if_neg hs]
    exact getParam_set_self ps k s
  · intro l hl
    rw [updateParam_coll, if_neg hl]
    exact getParam_set_self ps k _

/-- Witness for claim C8 on a concrete store: clearing the name key, setting
a scalar name and setting a two-element specialty collection. -/
theorem C8_update_then_get_witness :
    getParam (updateParam [(str "moc", str "In Clinic")] (str "name")
      (some (.scalar []))) (str "name") = none ∧
    getParam (updateParam [(str "moc", str "In Clinic")] (str "name")
      (some (.scalar (str "Bob")))) (str "name") = some (str "Bob") ∧
    getParam (updateParam [(str "moc", str "In Clinic")] (str "specialty")
      (some (.coll [str "Dentist", str "ENT"]))) (str "specialty") =
      some (List.intercalate (str ",") [str "Dentist", str "ENT"]) :=
  ⟨(C8_update_then_get [(str "moc", str "In Clinic")] (str "name")).1,
   (C8_update_then_get [(str "moc", str "In Clinic")] (str "name")).2.2.2.1
     (str "Bob") (by decide),
   (C8_update_then_get [(str "moc", str "In Clinic")] (str "specialty")).2.2.2.2
     [str "Dentist", str "ENT"] (by decide)⟩

/-- Claim C9: updating one query key never perturbs the value read at any
other key, whatever the update value is. -/
theorem C9_update_frame (ps : Params) (k1 k2 : Str) (v : Option ParamValue)
    (h : k1 ≠ k2) :
    getParam (updateParam ps k1 v) k2 = getParam ps k2 := by
  have hne : k2 ≠ k1 := Ne.symm h
  match v with
  | none =>
    rw [updateParam_none]
    exact getParam_delete_other ps k1 k2 hne
  | some (.scalar s) =>
    rw [updateParam_scalar]
    by_cases hs : s = []
    · rw [if_pos hs]
      exact getParam_delete_other ps k1 k2 hne
    · rw [if_neg hs]
      exact getParam_set_other ps k1 s k2 hne
  | some (.coll l) =>
    rw [updateParam_coll]
    by_cases hl : l = []
    · rw [if_pos hl]
      exact getParam_delete_other ps k1 k2 hne
    · rw [if_neg hl]
      exact getParam_set_other ps k1 _ k2 hne

/-- Witness for claim C9: setting the moc key leaves the name key's value
unchanged on a concrete store. -/
theorem C9_update_frame_witness :
    getParam (updateParam [(str "name", str "Bob")] (str "moc")
      (some (.scalar (str "In Clinic")))) (str "name") =
      getParam [(str "name", str "Bob")] (str "name") :=
  C9_update_frame [(str "name", str "Bob")] (str "moc") (str "name")
    (some (.scalar (str "In Clinic"))) (by decide)

/-- The specialty vocabulary contains no empty string. -/
theorem empty_not_in_SPECIALTIES : ([] : Str) ∉ SPECIALTIES := by decide

/-- Sorting an empty list gives an empty list, whatever the sort key. -/
theorem applySort_nil (s : Str) : applySort s [] = [] := by
  unfold applySort
  by_cases h1 : s = str "fees"
  · rw [if_pos h1]
    rfl
  · rw [if_neg h1]
    by_cases h2 : s = str "experience"
    · rw [if_pos h2]
      rfl
    · rw [if_neg h2]

/-- Claim C10: a present-but-empty specialty parameter parses to the
one-element list [""] rather than the empty list, so the specialty filter is
considered active and, the 24-term vocabulary containing no empty string,
every doctor is filtered out by both variants instead of the filter being
skipped. -/
theorem C10_empty_specialty_param (D : List Doctor)
    (hvocab : ∀ d ∈ D, ∀ s ∈ d.speciality, s ∈ SPECIALTIES) :
    parseSpecs (some []) = [[]] ∧
    parseSpecs (some []) ≠ [] ∧
    filteredA D ⟨[], [], parseSpecs (some []), []⟩ = [] ∧
    filteredB D ⟨[], [], parseSpecs (some []), []⟩ = [] := by
  have hname : filterName [] D = D := by
    unfold filterName
    rw [if_pos rfl]
  have hmodeA : filterModeA [] D = D := by
    unfold filterModeA
    rw [if_pos rfl]
  have hmodeB : filterModeB [] D = D := by
    unfold filterModeB
    rw [if_pos rfl]
  have hspecA : filterSpecA [[]] D = [] := by
    unfold filterSpecA
    rw [if_neg (by simp), List.filter_eq_nil_iff]
    intro d hd hc
    rcases List.any_eq_true.mp hc with ⟨s, hs, hcon⟩
    have hmem : s ∈ ([[]] : List Str) := by simpa using hcon
    have hse : s = [] := by simpa using hmem
    exact empty_not_in_SPECIALTIES (hse ▸ hvocab d hd s hs)
  have hspecB : filterSpecB [[]] D = [] := by
    unfold filterSpecB
    rw [if_neg (by simp), List.filter_eq_nil_iff]
    intro d hd hc
    have hcon : d.speciality.contains ([] : Str) = true := by
      simpa [allMatch] using hc
    have hmem : ([] : Str) ∈ d.speciality := by simpa using hcon
    exact empty_not_in_SPECIALTIES (hvocab d hd [] hmem)
  refine ⟨rfl, by simp [parseSpecs, splitComma], ?_, ?_⟩
  · show applySort [] (filterSpecA (parseSpecs (some []))
      (filterModeA [] (filterName [] D))) = []
    rw [hname, hmodeA]
    have : parseSpecs (some []) = [[]] := rfl
    rw [this, hspecA, applySort_nil]
  · show applySort [] (filterSpecB (parseSpecs (some []))
      (filterModeB [] (filterName [] D))) = []
    rw [hname, hmodeB]
    have : parseSpecs (some []) = [[]] := rfl
    rw [this, hspecB, applySort_nil]

/-- Witness for claim C10 on a concrete vocabulary-conforming list: the
empty specialty parameter wipes out the whole result in both variants. -/
theorem C10_empty_specialty_param_witness :
    parseSpecs (some []) = [[]] ∧
    parseSpecs (some []) ≠ [] ∧
    filteredA [dENT, dAlice] ⟨[], [], parseSpecs (some []), []⟩ = [] ∧
    filteredB [dENT, dAlice] ⟨[], [], parseSpecs (some []), []⟩ = [] :=
  C10_empty_specialty_param [dENT, dAlice] (by decide)
